import Mathlib

/-!
Verification of the vector index lifecycle manager of
`faiss_api` (files `index_store.py` and `app.py`).

The `FaissIndexStore` class is embedded shallowly: vectors are lists of
integers, the faiss `IndexFlatIP` object is a record of its dimension and
stored rows, and every Python method that can raise is a function into
`Except`, whose error value carries both the kind of exception and the
state of the mutated object at the moment the exception escapes (Python
exceptions leave partially-executed mutations in place).

The faiss library itself is external to the repository; its `IndexFlatIP`
`add`/`search` entry points are modelled from the documented faiss contract
used by the code: `add` asserts that every row has the index dimension,
`search` asserts the query dimension and `k > 0`, scores every stored row
by inner product, returns the `k` best (score, slot) pairs in descending
score order with ties broken by ascending slot, padding with slot `-1`
(and a sentinel score, which the repository code filters out) when `k`
exceeds the number of stored rows.
-/

deriving instance DecidableEq for Except

namespace FaissApi

/-- A vector, as handed to the store: a finite sequence of numbers.
Integers stand in for the float32 entries: every verified property uses
only comparison and equality of inner-product scores, never division or
rounding, so exact integer arithmetic (which the kernel can evaluate on
witnesses) is an adequate carrier for the entries. -/
abbrev Vec := List ℤ

/-- Inner product of two vectors (`faiss.IndexFlatIP` similarity). -/
def ip (u v : Vec) : ℤ := (List.zipWith (fun a b => a * b) u v).sum

/-- The kinds of Python exceptions the embedded code can raise. -/
inductive PyExn where
  /-- faiss wrapper assertion (wrong dimension, or `k = 0` in search). -/
  | assertionError
  /-- `np.stack` on rows of unequal length. -/
  | valueError
  /-- `json.load` on a malformed mapping file. -/
  | jsonDecodeError
  /-- `faiss.read_index` on a corrupt index blob. -/
  | readIndexError
  /-- Python list subscript out of range. -/
  | indexError
  /-- decoding error while reading the SQL dump fallback source. -/
  | unicodeDecodeError
deriving DecidableEq, Repr

/-- State of a faiss `IndexFlatIP` object: its dimension `d` and the
stored rows `xb` in insertion order. -/
structure FaissIndexFlatIP where
  d : ℕ
  xb : List Vec
deriving DecidableEq, Repr

/-- `faiss.IndexFlatIP(dim)`: a fresh empty index. -/
def IndexFlatIP (dim : ℕ) : FaissIndexFlatIP := { d := dim, xb := [] }

/-- `index.add(rows)`: appends the rows after asserting that each has
width `d` (faiss Python wrapper `assert d == self.d`). -/
def FaissIndexFlatIP.add (idx : FaissIndexFlatIP) (rows : List Vec) :
    Except PyExn FaissIndexFlatIP :=
  if rows.all (fun v => v.length = idx.d) then
    .ok { idx with xb := idx.xb ++ rows }
  else
    .error .assertionError

/-- `np.stack([...], axis=0)`: succeeds only when all rows have equal
length (otherwise `ValueError`); on an empty list it also raises. -/
def npStack (rows : List Vec) : Except PyExn (List Vec) :=
  match rows with
  | [] => .error .valueError
  | r :: rs =>
    if rs.all (fun v => v.length = r.length) then .ok (r :: rs)
    else .error .valueError

/-- Ordering used by the faiss search model on (slot, score) pairs:
higher score first, ties by lower slot. -/
def rankLE (a b : ℕ × ℤ) : Prop := b.2 < a.2 ∨ (a.2 = b.2 ∧ a.1 ≤ b.1)

instance : DecidableRel rankLE := fun a b => by
  unfold rankLE; infer_instance

instance : IsTotal (ℕ × ℤ) rankLE := by
  constructor
  intro a b
  rcases lt_trichotomy a.2 b.2 with h | h | h
  · exact Or.inr (Or.inl h)
  · rcases Nat.le_total a.1 b.1 with h1 | h1
    · exact Or.inl (Or.inr ⟨h, h1⟩)
    · exact Or.inr (Or.inr ⟨h.symm, h1⟩)
  · exact Or.inl (Or.inl h)

instance : IsTrans (ℕ × ℤ) rankLE := by
  constructor
  intro a b c hab hbc
  rcases hab with h1 | ⟨h1, h1n⟩ <;> rcases hbc with h2 | ⟨h2, h2n⟩
  · exact Or.inl (h2.trans h1)
  · exact Or.inl (h2 ▸ h1)
  · exact Or.inl (h1 ▸ h2)
  · exact Or.inr ⟨h1.trans h2, h1n.trans h2n⟩

/-- `index.search(query, k)` (model of the faiss `IndexFlat` exact-search
contract): asserts the query width and `k > 0`, scores every stored row by
inner product with the query, and returns `k` (score, slot) rows —
the `min k n` best in descending score order (ties by ascending slot),
padded with slot `-1` and a sentinel score when `k` exceeds `n`. -/
def FaissIndexFlatIP.search (idx : FaissIndexFlatIP) (q : Vec) (k : ℕ) :
    Except PyExn (List (ℤ × ℤ)) :=
  if q.length ≠ idx.d then .error .assertionError
  else if k = 0 then .error .assertionError
  else
    let top := (List.insertionSort rankLE (idx.xb.map (fun x => ip q x)).enum).take k
    .ok (top.map (fun p => (p.2, (p.1 : ℤ))) ++
      List.replicate (k - min k idx.xb.length) (0, -1))

/-- Contents of one of the persisted artifact paths: the path may be
absent, hold a well-formed artifact, or hold bytes its reader rejects. -/
inductive FileContent (α : Type) where
  | absent
  | valid (a : α)
  | malformed
deriving DecidableEq, Repr

/-- The two persisted artifacts of `index_store.py`: the index blob at
`INDEX_PATH` and the JSON id list at `MAPPING_PATH`. -/
structure Files where
  indexFile : FileContent FaissIndexFlatIP
  mappingFile : FileContent (List ℤ)
deriving DecidableEq, Repr

/-- Both artifact paths absent (fresh data directory). -/
def Files.empty : Files := { indexFile := .absent, mappingFile := .absent }

/-- State of a `FaissIndexStore` object (`index_store.py` lines 14-17):
the immutable `dim`, the owned faiss index and the id mapping list. -/
structure FaissIndexStore where
  dim : ℕ
  index : FaissIndexFlatIP
  mapping : List ℤ
deriving DecidableEq, Repr

/-- `FaissIndexStore.__init__(dim)`. -/
def FaissIndexStore.init (dim : ℕ) : FaissIndexStore :=
  { dim := dim, index := IndexFlatIP dim, mapping := [] }

/-- `FaissIndexStore.save` (lines 19-26): writes both artifacts. -/
def FaissIndexStore.save (s : FaissIndexStore) : Files :=
  { indexFile := .valid s.index, mappingFile := .valid s.mapping }

/-- `FaissIndexStore.load_if_exists` (lines 28-40): returns `false` when
either path is missing or the persisted dimension differs; otherwise
installs the loaded index, then the loaded mapping.  A corrupt blob makes
`faiss.read_index` raise before any mutation; a malformed mapping file
makes `json.load` raise after `self.index` has already been replaced, so
the error value carries that partially-updated state. -/
def FaissIndexStore.load_if_exists (s : FaissIndexStore) (fs : Files) :
    Except (PyExn × FaissIndexStore) (FaissIndexStore × Bool) :=
  match fs.indexFile, fs.mappingFile with
  | .absent, _ => .ok (s, false)
  | _, .absent => .ok (s, false)
  | .malformed, _ => .error (.readIndexError, s)
  | .valid idx, .valid m =>
    if idx.d ≠ s.dim then .ok (s, false)
    else .ok ({ s with index := idx, mapping := m }, true)
  | .valid idx, .malformed =>
    if idx.d ≠ s.dim then .ok (s, false)
    else .error (.jsonDecodeError, { s with index := idx })

/-- `FaissIndexStore.rebuild` (lines 42-51): resets the index and the
mapping, then, when `items` is nonempty, stacks the vectors and adds them,
installing the ids.  A raise from `np.stack` or from the faiss `add`
assertion leaves the object in the already-reset state. -/
def FaissIndexStore.rebuild (s : FaissIndexStore) (items : List (ℤ × Vec)) :
    Except (PyExn × FaissIndexStore) FaissIndexStore :=
  let s0 : FaissIndexStore := { s with index := IndexFlatIP s.dim, mapping := [] }
  match items with
  | [] => .ok s0
  | _ =>
    match npStack (items.map Prod.snd) with
    | .error e => .error (e, s0)
    | .ok vecs =>
      match s0.index.add vecs with
      | .error e => .error (e, s0)
      | .ok idx => .ok { s0 with index := idx, mapping := items.map Prod.fst }

/-- `FaissIndexStore.add` (lines 53-58): one faiss row, then one mapping
append.  A dimension assertion from faiss escapes before the append, so
the error value carries the unchanged state. -/
def FaissIndexStore.add (s : FaissIndexStore) (product_id : ℤ) (vector : Vec) :
    Except (PyExn × FaissIndexStore) FaissIndexStore :=
  match s.index.add [vector] with
  | .error e => .error (e, s)
  | .ok idx => .ok { s with index := idx, mapping := s.mapping ++ [product_id] }

/-- The result-assembly loop of `FaissIndexStore.search` (lines 67-72):
skips slot `-1`, subscripts the mapping (an out-of-range slot raises
`IndexError`, as the Python subscript does), and collects (id, score).
Slots other than `-1` produced by faiss are always the naturals
`0 ≤ slot < ntotal`, so the `toNat` coercion is exact on every reachable
input. -/
def searchLoop (mapping : List ℤ) :
    List (ℤ × ℤ) → List (ℤ × ℤ) → Except PyExn (List (ℤ × ℤ))
  | [], acc => .ok acc.reverse
  | (score, i) :: rest, acc =>
    if i = -1 then searchLoop mapping rest acc
    else
      match mapping.get? i.toNat with
      | none => .error .indexError
      | some pid => searchLoop mapping rest ((pid, score) :: acc)

/-- `FaissIndexStore.search` (lines 60-73): empty mapping short-circuits
to `[]`; otherwise the faiss search runs and the loop translates slots to
ids. -/
def FaissIndexStore.search (s : FaissIndexStore) (vector : Vec) (top_k : ℕ) :
    Except PyExn (List (ℤ × ℤ)) :=
  if s.mapping.length = 0 then .ok []
  else
    match s.index.search vector top_k with
    | .error e => .error e
    | .ok di => searchLoop s.mapping di []

/-- One Index Store operation, as named by the spec invariant. -/
inductive Op where
  | add (pid : ℤ) (v : Vec)
  | rebuild (items : List (ℤ × Vec))
  | save
  | load
deriving Repr

/-- Effect of one operation on the (store object, artifact files) pair.
When the operation raises, the state it leaves behind is the one the
error value carries — exactly what a Python caller that catches the
exception would observe. -/
def Op.step : FaissIndexStore × Files → Op → FaissIndexStore × Files
  | (s, fs), .add pid v =>
    (match s.add pid v with | .ok t => t | .error (_, t) => t, fs)
  | (s, fs), .rebuild items =>
    (match s.rebuild items with | .ok t => t | .error (_, t) => t, fs)
  | (s, _), .save => (s, s.save)
  | (s, fs), .load =>
    (match s.load_if_exists fs with | .ok (t, _) => t | .error (_, t) => t, fs)

/-- Runs a sequence of Index Store operations. -/
def runOps (st : FaissIndexStore × Files) (ops : List Op) : FaissIndexStore × Files :=
  ops.foldl Op.step st

/-- The spec invariant: the mapping has one entry per stored vector. -/
def StoreInv (s : FaissIndexStore) : Prop :=
  s.mapping.length = s.index.xb.length

instance (s : FaissIndexStore) : Decidable (StoreInv s) := by
  unfold StoreInv; infer_instance

/-!
Lifecycle manager (`app.py`).  The external collaborators — the MySQL
fetch, the SQL-dump parse and the embedding function — are abstracted to
the outcome each source row produces inside the build loop of
`_init_index` (lines 59-73): the row is soft-deleted, or its id/embedding
computation raises, or it yields an (id, vector) item.
-/

/-- Outcome of one source row in the `_init_index` build loop. -/
inductive SourceRow where
  /-- the row is marked soft-deleted: skipped, progress still advances. -/
  | deleted
  /-- id coercion or embedding raised: swallowed, progress advances. -/
  | failed
  /-- a usable row yielding this (product id, embedding vector). -/
  | good (pid : ℤ) (v : Vec)
deriving DecidableEq, Repr

/-- The globals the `_init_index` build loop mutates: the store being
populated (`_index`), the `processed` counter and the `_index_ready`
flag. -/
structure BuildState where
  store : FaissIndexStore
  processed : ℕ
  ready : Bool
deriving DecidableEq, Repr

/-- `batch_threshold` (app.py line 58). -/
def batchThreshold : ℕ := 30

/-- One iteration of the `_init_index` loop body (lines 59-73).  Every
branch advances `processed` by exactly one; the ready check (lines 69-70)
runs only after a successful `add`, and flips `_index_ready` once the
`processed` counter — which counts deleted, failed and good rows alike —
has reached the threshold. -/
def buildStep (st : BuildState) (row : SourceRow) : BuildState :=
  match row with
  | .deleted => { st with processed := st.processed + 1 }
  | .failed => { st with processed := st.processed + 1 }
  | .good pid v =>
    match st.store.add pid v with
    | .error _ => { st with processed := st.processed + 1 }
    | .ok s =>
      let p := st.processed + 1
      { store := s, processed := p,
        ready := st.ready || decide (batchThreshold ≤ p) }

/-- The whole `_init_index` build loop over a row sequence. -/
def buildRun (st : BuildState) (rows : List SourceRow) : BuildState :=
  rows.foldl buildStep st

/-- Snapshot of the module globals of `app.py` that `_init_index`
publishes: `_index`, `_index_ready`, `_index_progress` and
`_index_error`. -/
structure InitGlobal where
  published : Option FaissIndexStore
  ready : Bool
  total : ℕ
  processed : ℕ
  error : Option PyExn
  files : Files
deriving DecidableEq, Repr

/-- `_init_index` (app.py lines 30-78).  Inputs abstract the
collaborators: `fs` is the persisted-artifact state, `primary` is the
MySQL row list (`none` models `fetch_all_products` raising, which the
code catches into `[]`), `fallback` is the SQL-dump parse (which can
itself raise — e.g. a `UnicodeDecodeError` while reading the dump — and
that raise is only caught by the outer handler, which records the error
and does NOT set `_index_ready`).  After a completed loop the code sets
`_index_ready = True` unconditionally and saves. -/
def initIndex (dim : ℕ) (fs : Files) (primary : Option (List SourceRow))
    (fallback : Except PyExn (List SourceRow)) : InitGlobal :=
  let store := FaissIndexStore.init dim
  match store.load_if_exists fs with
  | .error _ =>
    -- the load call sits outside the try block; a raise escapes the
    -- thread with no global mutated
    { published := none, ready := false, total := 0, processed := 0,
      error := none, files := fs }
  | .ok (t, true) =>
    { published := some t, ready := true, total := t.mapping.length,
      processed := t.mapping.length, error := none, files := fs }
  | .ok (_, false) =>
    let productsE : Except PyExn (List SourceRow) :=
      match primary with
      | some l => if l.isEmpty then fallback else .ok l
      | none => fallback
    match productsE with
    | .error e =>
      -- outer except (lines 77-78): only `_index_error` is assigned;
      -- `_index` and `_index_ready` keep their pre-call values
      { published := none, ready := false, total := 0, processed := 0,
        error := some e, files := fs }
    | .ok products =>
      let fin := buildRun { store := store, processed := 0, ready := false } products
      { published := some fin.store, ready := true, total := products.length,
        processed := fin.processed, error := none, files := fin.store.save }

/-- What a concurrent reader can observe of the published globals while
the `/rebuild` (GET) background task runs: the `_index` pointer and the
`_index_ready` flag. -/
structure Observed where
  published : Option FaissIndexStore
  ready : Bool
deriving DecidableEq, Repr

/-- Outcome of one source row inside the `/rebuild` task loop (app.py
lines 162-174): either the id or embedding step raised (row skipped) or
the row contributes an item. -/
abbrev TaskRow := Option (ℤ × Vec)

/-- The item list the `/rebuild` task accumulates (lines 161-174). -/
def taskItems (rows : List TaskRow) : List (ℤ × Vec) :=
  rows.filterMap id

/-- The sequence of reader-observable global snapshots during
`rebuild_index` (app.py lines 145-185), one entry per atomic step of the
handler and its `_task` thread: the handler sets `_index_ready = False`;
the task fetches rows, builds `items`, and rebuilds and saves a store
`_index` never pointed at; only then `_index = store` is published and
`_index_ready = True`.  If any step of the task raises, the except block
records the error and sets `_index_ready = True` with `_index`
unchanged. -/
def rebuildTaskTrace (g0 : Observed) (dim : ℕ) (rows : List TaskRow) :
    List Observed :=
  let paused : Observed := { g0 with ready := false }
  -- snapshots: after the handler flip, after the fetch, after each row,
  -- after the local rebuild, after the local save
  let building := List.replicate (rows.length + 4) paused
  match (FaissIndexStore.init dim).rebuild (taskItems rows) with
  | .ok t =>
    building ++ [{ published := some t, ready := false },
                 { published := some t, ready := true }]
  | .error _ =>
    building ++ [{ g0 with ready := true }]

end FaissApi



namespace FaissApi

/-! Section: Helper lemmas -/

/-- `rebuild` succeeds exactly when every item vector has width `dim`,
and then the store is wholesale-replaced: the mapping becomes the item
ids in order and the stored rows become the item vectors in order. -/
theorem rebuild_ok_iff (s : FaissIndexStore) (items : List (ℤ × Vec))
    (t : FaissIndexStore) :
    s.rebuild items = .ok t ↔
      ((∀ p ∈ items, (Prod.snd p).length = s.dim) ∧
        t = { dim := s.dim, index := { d := s.dim, xb := items.map Prod.snd },
              mapping := items.map Prod.fst }) := by
  unfold FaissIndexStore.rebuild
  rcases items with _ | ⟨it, its⟩
  · constructor
    · intro h
      cases h
      exact ⟨by simp, by simp [IndexFlatIP]⟩
    · rintro ⟨-, rfl⟩
      simp [IndexFlatIP]
  · simp only
    constructor
    · intro h
      rcases hst : npStack ((it :: its).map Prod.snd) with e | vecs
      · simp only [hst] at h
        simp at h
      · simp only [hst] at h
        rcases hadd : (IndexFlatIP s.dim).add vecs with e | idx
        · simp only [hadd] at h
          simp at h
        · simp only [hadd] at h
          cases h
          unfold npStack at hst
          simp only [List.map_cons] at hst
          split at hst
          · rename_i hall
            cases hst
            unfold FaissIndexFlatIP.add at hadd
            split at hadd
            · rename_i hall2
              cases hadd
              simp only [IndexFlatIP, List.all_eq_true, decide_eq_true_eq,
                List.mem_cons, List.mem_map] at hall hall2
              constructor
              · rintro p hp
                rcases List.mem_cons.1 hp with rfl | hp2
                · exact hall2 _ (Or.inl rfl)
                · exact hall2 _ (Or.inr ⟨p, hp2, rfl⟩)
              · simp [IndexFlatIP]
            · cases hadd
          · cases hst
    · rintro ⟨hlen, rfl⟩
      have hstack : npStack ((it :: its).map Prod.snd) = .ok ((it :: its).map Prod.snd) := by
        unfold npStack
        simp only [List.map_cons]
        rw [if_pos]
        simp only [List.all_eq_true, decide_eq_true_eq, List.mem_map]
        rintro v ⟨p, hp, rfl⟩
        rw [hlen p (List.mem_cons_of_mem _ hp), hlen it (List.mem_cons_self _ _)]
      have hadd : (IndexFlatIP s.dim).add ((it :: its).map Prod.snd) =
          .ok { d := s.dim, xb := (it :: its).map Prod.snd } := by
        unfold FaissIndexFlatIP.add IndexFlatIP
        rw [if_pos]
        · simp
        · simp only [List.all_eq_true, decide_eq_true_eq, List.mem_map]
          rintro v ⟨p, hp, rfl⟩
          exact hlen p hp
      simp only [List.map_cons] at hstack hadd ⊢
      simp only [hstack, hadd]

/-- A failed `rebuild` leaves the object in the reset state. -/
theorem rebuild_err_state (s : FaissIndexStore) (items : List (ℤ × Vec))
    (e : PyExn) (t : FaissIndexStore)
    (h : s.rebuild items = .error (e, t)) :
    t = { s with index := IndexFlatIP s.dim, mapping := [] } := by
  unfold FaissIndexStore.rebuild at h
  rcases items with _ | ⟨it, its⟩
  · cases h
  · simp only at h
    rcases hst : npStack ((it :: its).map Prod.snd) with e2 | vecs
    · simp only [hst] at h
      cases h
      rfl
    · simp only [hst] at h
      rcases hadd : (IndexFlatIP s.dim).add vecs with e2 | idx
      · simp only [hadd] at h
        cases h
        rfl
      · simp only [hadd] at h
        simp at h

/-- A successful `rebuild` satisfies the mapping/count invariant. -/
theorem rebuild_ok_inv {s : FaissIndexStore} {items : List (ℤ × Vec)}
    {t : FaissIndexStore} (h : s.rebuild items = .ok t) : StoreInv t := by
  rcases (rebuild_ok_iff s items t).1 h with ⟨-, rfl⟩
  simp [StoreInv]

/-- A vector of the wrong width makes `add` raise the faiss dimension
assertion, carrying the unchanged store. -/
theorem add_err {s : FaissIndexStore} {pid : ℤ} {v : Vec}
    (h : v.length ≠ s.index.d) :
    s.add pid v = .error (.assertionError, s) := by
  unfold FaissIndexStore.add FaissIndexFlatIP.add
  rw [if_neg]
  simp [h]

/-- A vector of the right width makes `add` append one row and one id. -/
theorem add_ok {s : FaissIndexStore} {pid : ℤ} {v : Vec}
    (h : v.length = s.index.d) :
    s.add pid v = .ok { s with
      index := { s.index with xb := s.index.xb ++ [v] },
      mapping := s.mapping ++ [pid] } := by
  unfold FaissIndexStore.add FaissIndexFlatIP.add
  rw [if_pos]
  simp [h]

/-! Section: Claim C10: dimension-mismatch on add -/

/-- C10: for every vector whose length differs from the store dimension,
`add` fails with the faiss dimension-mismatch assertion — the vector is
never truncated or padded into the index — and the failed call leaves
both the index and the mapping exactly as they were.  (`hwf` records that
the owned faiss index was built with the store dimension, true of every
store the class constructs.) -/
theorem add_dimension_mismatch (s : FaissIndexStore) (pid : ℤ) (v : Vec)
    (hwf : s.index.d = s.dim) (h : v.length ≠ s.dim) :
    s.add pid v = .error (.assertionError, s) :=
  add_err (by rw [hwf]; exact h)

/-- Witness for `add_dimension_mismatch` at a concrete store and vector. -/
theorem add_dimension_mismatch_witness :
    (FaissIndexStore.init 2).index.d = (FaissIndexStore.init 2).dim ∧
    ([ (7 : ℤ) ] : Vec).length ≠ (FaissIndexStore.init 2).dim ∧
    (FaissIndexStore.init 2).add 9 [7] = .error (.assertionError, FaissIndexStore.init 2) :=
  ⟨by decide, by decide, add_dimension_mismatch (FaissIndexStore.init 2) 9 [7] (by decide) (by decide)⟩

/-! Section: Claim C2: save / load round trip -/

/-- C2: saving a store and loading on a fresh store of the same `dim`
succeeds and reconstructs a store with the identical mapping sequence and
identical `search` results for every query vector and every `k`.  (`hwf`
as in `add_dimension_mismatch`.) -/
theorem save_load_round_trip (s : FaissIndexStore) (hwf : s.index.d = s.dim) :
    (FaissIndexStore.init s.dim).load_if_exists s.save = .ok (s, true) ∧
    ∀ t, (FaissIndexStore.init s.dim).load_if_exists s.save = .ok (t, true) →
      t.mapping = s.mapping ∧ ∀ q k, t.search q k = s.search q k := by
  have hload : (FaissIndexStore.init s.dim).load_if_exists s.save = .ok (s, true) := by
    obtain ⟨d, idx, m⟩ := s
    simp only [FaissIndexStore.save, FaissIndexStore.load_if_exists, FaissIndexStore.init] at *
    rw [if_neg]
    simp only [not_not]
    exact hwf
  refine ⟨hload, ?_⟩
  intro t ht
  rw [hload] at ht
  cases ht
  exact ⟨rfl, fun q k => rfl⟩

/-- Witness for `save_load_round_trip` at a concrete populated store. -/
theorem save_load_round_trip_witness :
    ({ dim := 1, index := { d := 1, xb := [[4]] }, mapping := [9] } : FaissIndexStore).index.d =
      ({ dim := 1, index := { d := 1, xb := [[4]] }, mapping := [9] } : FaissIndexStore).dim ∧
    ((FaissIndexStore.init 1).load_if_exists
        ({ dim := 1, index := { d := 1, xb := [[4]] }, mapping := [9] } : FaissIndexStore).save =
      .ok ({ dim := 1, index := { d := 1, xb := [[4]] }, mapping := [9] }, true) ∧
     ∀ t, (FaissIndexStore.init 1).load_if_exists
        ({ dim := 1, index := { d := 1, xb := [[4]] }, mapping := [9] } : FaissIndexStore).save =
          .ok (t, true) →
       t.mapping = [9] ∧ ∀ q k, t.search q k =
         ({ dim := 1, index := { d := 1, xb := [[4]] }, mapping := [9] } : FaissIndexStore).search q k) :=
  ⟨by decide, save_load_round_trip { dim := 1, index := { d := 1, xb := [[4]] }, mapping := [9] } (by decide)⟩

/-! Section: Claim C3: load guards (corrected — no cardinality check) -/

/-- C3 counterexample: `load_if_exists` succeeds on artifacts that exist
with matching dimension but DISAGREE in cardinality — one persisted
vector against two mapping entries — so the claimed cardinality-agreement
condition for a successful load does not hold on the code. -/
theorem load_ignores_cardinality_cex :
    (FaissIndexStore.init 1).load_if_exists
        { indexFile := .valid { d := 1, xb := [[2]] }, mappingFile := .valid [5, 6] } =
      .ok ({ dim := 1, index := { d := 1, xb := [[2]] }, mapping := [5, 6] }, true) ∧
    ([5, 6] : List ℤ).length ≠ ([[2]] : List Vec).length := by
  decide

/-- C3 amended: `load_if_exists` returns a loaded store exactly when both
artifacts exist and are well-formed and the persisted dimension equals the
store dimension; the cardinality of the two artifacts is NOT checked.  In
particular a persisted dimension different from the store dimension makes
the call return `false`, forcing a rebuild. -/
theorem load_success_characterization (s : FaissIndexStore) (fs : Files) :
    ((∃ t, s.load_if_exists fs = .ok (t, true)) ↔
      (∃ idx m, fs.indexFile = .valid idx ∧ fs.mappingFile = .valid m ∧ idx.d = s.dim)) ∧
    (∀ idx, fs.indexFile = .valid idx → idx.d ≠ s.dim →
      s.load_if_exists fs = .ok (s, false)) := by
  obtain ⟨fi, fm⟩ := fs
  constructor
  · constructor
    · rintro ⟨t, ht⟩
      cases fi <;> cases fm <;>
        simp only [FaissIndexStore.load_if_exists] at ht
      · simp at ht
      · simp at ht
      · simp at ht
      · simp at ht
      · rename_i idx m
        split at ht
        · simp at ht
        · rename_i hd
          exact ⟨idx, m, rfl, rfl, not_ne_iff.1 hd⟩
      · split at ht <;> simp at ht
      · simp at ht
      · simp at ht
      · simp at ht
    · rintro ⟨idx, m, rfl, rfl, hd⟩
      refine ⟨{ s with index := idx, mapping := m }, ?_⟩
      simp only [FaissIndexStore.load_if_exists]
      rw [if_neg (not_ne_iff.2 hd)]
  · rintro idx rfl hd
    cases fm <;> simp only [FaissIndexStore.load_if_exists]
    · rw [if_pos hd]
    · rw [if_pos hd]

/-- Witness for `load_success_characterization`: a well-formed pair with
matching dimension loads; a pair whose persisted dimension is 2 against a
store of dimension 1 returns `false`. -/
theorem load_success_characterization_witness :
    (∃ t, (FaissIndexStore.init 1).load_if_exists
        { indexFile := .valid { d := 1, xb := [[3]] }, mappingFile := .valid [7] } = .ok (t, true)) ∧
    (FaissIndexStore.init 1).load_if_exists
        { indexFile := .valid { d := 2, xb := [[3, 0]] }, mappingFile := .valid [7] } =
      .ok (FaissIndexStore.init 1, false) :=
  ⟨(load_success_characterization (FaissIndexStore.init 1) _).1.mpr
      ⟨{ d := 1, xb := [[3]] }, [7], rfl, rfl, rfl⟩,
    (load_success_characterization (FaissIndexStore.init 1) _).2 _ rfl (by decide)⟩

/-! Section: Claim C9: malformed artifacts (corrected — load can raise and
leave a partial store) -/

/-- C9 counterexample: with a well-formed index blob of two vectors and a
malformed mapping file, `load_if_exists` on a store holding one vector
and one id raises (`json.load` error) instead of returning `false`, and
the store it leaves behind has the NEW index with the OLD mapping — a
partially-populated store that even violates the count invariant. -/
theorem malformed_mapping_partial_load_cex :
    ({ dim := 1, index := { d := 1, xb := [[7]] }, mapping := [9] } : FaissIndexStore).load_if_exists
        { indexFile := .valid { d := 1, xb := [[2], [3]] }, mappingFile := .malformed } =
      .error (.jsonDecodeError,
        { dim := 1, index := { d := 1, xb := [[2], [3]] }, mapping := [9] }) ∧
    ¬ StoreInv { dim := 1, index := { d := 1, xb := [[2], [3]] }, mapping := [9] } := by
  decide

/-- C9 amended: a load that returns `false` (missing artifact, or stale
persisted dimension) leaves the store exactly as it was; but malformed
artifacts RAISE instead of returning `false`: a corrupt index blob raises
with the store unchanged, while a malformed mapping file alongside a
well-formed index blob of matching dimension raises with the loaded index
already installed over the old mapping (a partially-populated store). -/
theorem load_failure_modes (s : FaissIndexStore) (fs : Files) :
    ((fs.indexFile = .absent ∨ fs.mappingFile = .absent) →
      s.load_if_exists fs = .ok (s, false)) ∧
    (∀ idx, fs.indexFile = .valid idx → idx.d ≠ s.dim →
      s.load_if_exists fs = .ok (s, false)) ∧
    (fs.indexFile = .malformed → fs.mappingFile ≠ .absent →
      s.load_if_exists fs = .error (.readIndexError, s)) ∧
    (∀ idx, fs.indexFile = .valid idx → fs.mappingFile = .malformed →
      idx.d = s.dim →
      s.load_if_exists fs = .error (.jsonDecodeError, { s with index := idx })) := by
  obtain ⟨fi, fm⟩ := fs
  refine ⟨?_, ?_, ?_, ?_⟩
  · rintro (rfl | rfl)
    · cases fm <;> rfl
    · cases fi <;> rfl
  · rintro idx rfl hd
    cases fm <;> simp only [FaissIndexStore.load_if_exists]
    · rw [if_pos hd]
    · rw [if_pos hd]
  · rintro rfl hm
    cases fm
    · exact absurd rfl hm
    · rfl
    · rfl
  · rintro idx rfl rfl hd
    simp only [FaissIndexStore.load_if_exists]
    rw [if_neg (not_ne_iff.2 hd)]

/-- Witness for `load_failure_modes`: each failure mode exercised at a
concrete store and file state. -/
theorem load_failure_modes_witness :
    (FaissIndexStore.init 1).load_if_exists Files.empty = .ok (FaissIndexStore.init 1, false) ∧
    (FaissIndexStore.init 1).load_if_exists
        { indexFile := .valid { d := 2, xb := [] }, mappingFile := .valid [] } =
      .ok (FaissIndexStore.init 1, false) ∧
    (FaissIndexStore.init 1).load_if_exists
        { indexFile := .malformed, mappingFile := .valid [] } =
      .error (.readIndexError, FaissIndexStore.init 1) ∧
    (FaissIndexStore.init 1).load_if_exists
        { indexFile := .valid { d := 1, xb := [[2]] }, mappingFile := .malformed } =
      .error (.jsonDecodeError,
        { dim := 1, index := { d := 1, xb := [[2]] }, mapping := [] }) :=
  ⟨(load_failure_modes (FaissIndexStore.init 1) Files.empty).1 (Or.inl rfl),
   (load_failure_modes (FaissIndexStore.init 1) _).2.1 _ rfl (by decide),
   (load_failure_modes (FaissIndexStore.init 1) _).2.2.1 rfl (by decide),
   (load_failure_modes (FaissIndexStore.init 1) _).2.2.2 _ rfl rfl (by decide)⟩

/-! Section: Claim C8: failure during the initialization build (code bug) -/

/-- C8 evaluated at the failing input: no persisted artifacts, the MySQL
fetch raises (caught into an empty list), and the SQL-dump fallback read
raises a `UnicodeDecodeError` that reaches the outer handler of
`_init_index`.  The handler records the error but never sets
`_index_ready`, so the process is left permanently not-ready — the
documented advance-to-ready behaviour does not happen on
this path (the handler of the `/rebuild` task does set the flag; the
`_init_index` handler, lines 77-78, does not). -/
theorem init_build_failure_leaves_not_ready :
    initIndex 512 Files.empty none (.error .unicodeDecodeError) =
      { published := none, ready := false, total := 0, processed := 0,
        error := some .unicodeDecodeError, files := Files.empty } := by
  decide

/-! Section: Claim C1: the mapping/count invariant over operation sequences -/

/-- Invariant on the persisted artifacts reachable through `save`: no
artifact is malformed, and well-formed pairs agree in cardinality. -/
def FilesInv (fs : Files) : Prop :=
  fs.indexFile ≠ .malformed ∧ fs.mappingFile ≠ .malformed ∧
    ∀ idx m, fs.indexFile = .valid idx → fs.mappingFile = .valid m →
      m.length = idx.xb.length

/-- Joint invariant of the store object and the artifact files. -/
def SysInv (st : FaissIndexStore × Files) : Prop :=
  StoreInv st.1 ∧ FilesInv st.2

/-- Every single Index Store operation preserves the joint invariant,
whether it returns normally or raises. -/
theorem step_preserves_sysInv (st : FaissIndexStore × Files) (op : Op)
    (h : SysInv st) : SysInv (Op.step st op) := by
  obtain ⟨s, fs⟩ := st
  obtain ⟨hs, hfi, hfm, hcard⟩ := h
  cases op with
  | add pid v =>
    simp only [Op.step]
    rcases Nat.decEq v.length s.index.d with hd | hd
    · rw [add_err hd]
      exact ⟨hs, hfi, hfm, hcard⟩
    · rw [add_ok hd]
      refine ⟨?_, hfi, hfm, hcard⟩
      simp only [StoreInv] at hs ⊢
      simp [hs]
  | rebuild items =>
    simp only [Op.step]
    rcases hr : s.rebuild items with ⟨e, t⟩ | t
    · refine ⟨?_, hfi, hfm, hcard⟩
      rw [rebuild_err_state s items e t hr]
      simp [StoreInv, IndexFlatIP]
    · exact ⟨rebuild_ok_inv hr, hfi, hfm, hcard⟩
  | save =>
    refine ⟨hs, ?_, ?_, ?_⟩
    · simp [Op.step, FaissIndexStore.save]
    · simp [Op.step, FaissIndexStore.save]
    · intro idx m hidx hm
      simp only [Op.step, FaissIndexStore.save] at hidx hm
      cases hidx
      cases hm
      exact hs
  | load =>
    simp only [Op.step]
    obtain ⟨fi, fm⟩ := fs
    cases fi with
    | absent =>
      cases fm <;> exact ⟨hs, hfi, hfm, hcard⟩
    | malformed => exact absurd rfl hfi
    | valid idx =>
      cases fm with
      | absent => exact ⟨hs, hfi, hfm, hcard⟩
      | malformed => exact absurd rfl hfm
      | valid m =>
        simp only [Op.step, FaissIndexStore.load_if_exists]
        by_cases hd : idx.d = s.dim
        · rw [if_neg (not_ne_iff.2 hd)]
          exact ⟨hcard idx m rfl rfl, hfi, hfm, hcard⟩
        · rw [if_pos hd]
          exact ⟨hs, hfi, hfm, hcard⟩

/-- The joint invariant propagates through any operation sequence. -/
theorem runOps_preserves_sysInv (ops : List Op) (st : FaissIndexStore × Files)
    (h : SysInv st) : SysInv (runOps st ops) := by
  induction ops generalizing st with
  | nil => exact h
  | cons op ops ih => exact ih _ (step_preserves_sysInv st op h)

/-- C1: starting from a fresh store and an empty data directory, after any
sequence of `add` / `rebuild` / `save` / `load_if_exists` operations the
mapping table has exactly one entry per vector stored in the index. -/
theorem mapping_matches_index_count (dim : ℕ) (ops : List Op) :
    StoreInv (runOps (FaissIndexStore.init dim, Files.empty) ops).1 := by
  refine (runOps_preserves_sysInv ops _ ?_).1
  refine ⟨by simp [StoreInv, FaissIndexStore.init, IndexFlatIP], ?_, ?_, ?_⟩
  · simp [Files.empty]
  · simp [Files.empty]
  · intro idx m hidx hm
    simp [Files.empty] at hidx

/-! Section: Claim C5: rebuild replaces wholesale; search ids come from items -/

/-- Every pair collected by the search result loop either was already in
the accumulator or carries an id read out of the mapping. -/
theorem searchLoop_mem_mapping (mapping : List ℤ) (l : List (ℤ × ℤ))
    (acc res : List (ℤ × ℤ)) (h : searchLoop mapping l acc = .ok res) :
    ∀ pr ∈ res, pr ∈ acc ∨ pr.1 ∈ mapping := by
  induction l generalizing acc with
  | nil =>
    unfold searchLoop at h
    cases h
    intro pr hpr
    exact Or.inl (List.mem_reverse.1 hpr)
  | cons p rest ih =>
    obtain ⟨score, i⟩ := p
    unfold searchLoop at h
    by_cases hi : i = -1
    · rw [if_pos hi] at h
      exact ih _ h
    · rw [if_neg hi] at h
      rcases hg : mapping.get? i.toNat with _ | pid
      · simp only [hg] at h
        simp at h
      · simp only [hg] at h
        intro pr hpr
        rcases ih _ h pr hpr with hin | hin
        · rcases List.mem_cons.1 hin with rfl | hin2
          · exact Or.inr (List.get?_mem hg)
          · exact Or.inl hin2
        · exact Or.inr hin

/-- C5: `rebuild items` (for items whose vectors have the store width,
the only well-formed inputs) discards all previous contents: the mapping
becomes exactly the item ids in the given order, the stored vectors
become exactly the item vectors, and every id any subsequent `search`
returns occurs among the item ids — in particular an id excluded from
`items` is never returned again. -/
theorem rebuild_wholesale (s : FaissIndexStore) (items : List (ℤ × Vec))
    (h : ∀ p ∈ items, (Prod.snd p).length = s.dim) :
    ∃ t, s.rebuild items = .ok t ∧
      t.mapping = items.map Prod.fst ∧
      t.index.xb = items.map Prod.snd ∧
      ∀ q k res, t.search q k = .ok res →
        ∀ pr ∈ res, pr.1 ∈ items.map Prod.fst := by
  refine ⟨_, (rebuild_ok_iff s items _).2 ⟨h, rfl⟩, rfl, rfl, ?_⟩
  intro q k res hres pr hpr
  unfold FaissIndexStore.search at hres
  split at hres
  · cases hres
    cases hpr
  · rcases hfs : FaissIndexFlatIP.search { d := s.dim, xb := items.map Prod.snd } q k
        with e | di
    · simp only [hfs] at hres
      simp at hres
    · simp only [hfs] at hres
      rcases searchLoop_mem_mapping _ _ _ _ hres pr hpr with hin | hin
      · cases hin
      · exact hin

/-- Witness for `rebuild_wholesale`: a store holding ids 1, 2, 3 rebuilt
with items excluding id 2. -/
theorem rebuild_wholesale_witness :
    (∀ p ∈ ([(1, [2]), (3, [4])] : List (ℤ × Vec)),
      (Prod.snd p).length =
        ({ dim := 1, index := { d := 1, xb := [[5], [6], [7]] },
           mapping := [1, 2, 3] } : FaissIndexStore).dim) ∧
    ∃ t, ({ dim := 1, index := { d := 1, xb := [[5], [6], [7]] },
            mapping := [1, 2, 3] } : FaissIndexStore).rebuild [(1, [2]), (3, [4])] = .ok t ∧
      t.mapping = [1, 3] ∧
      t.index.xb = [[2], [4]] ∧
      ∀ q k res, t.search q k = .ok res → ∀ pr ∈ res, pr.1 ∈ ([1, 3] : List ℤ) :=
  ⟨by decide,
    rebuild_wholesale
      { dim := 1, index := { d := 1, xb := [[5], [6], [7]] }, mapping := [1, 2, 3] }
      [(1, [2]), (3, [4])] (by decide)⟩

/-! Section: Claim C6: background rebuild publishes atomically -/

/-- C6: at every reader-observable step of the background `/rebuild`
task, the published store pointer is either the pre-rebuild pointer or
the fully-built new store (and in the error path stays the old pointer);
consequently any store a reader observes satisfies the mapping/count
invariant, provided the old one did.  The swap happens only after the new
store is completely rebuilt and saved. -/
theorem background_rebuild_atomic (g0 : Observed) (dim : ℕ) (rows : List TaskRow)
    (hinv : ∀ s, g0.published = some s → StoreInv s) :
    ∀ g ∈ rebuildTaskTrace g0 dim rows,
      (g.published = g0.published ∨
        ∃ t, (FaissIndexStore.init dim).rebuild (taskItems rows) = .ok t ∧
          g.published = some t) ∧
      (∀ s, g.published = some s → StoreInv s) := by
  intro g hg
  unfold rebuildTaskTrace at hg
  rcases hr : (FaissIndexStore.init dim).rebuild (taskItems rows) with ⟨e, t⟩ | t
  · simp only [hr] at hg
    rcases List.mem_append.1 hg with hg | hg
    · have hpaused := List.eq_of_mem_replicate hg
      subst hpaused
      exact ⟨Or.inl rfl, hinv⟩
    · rw [List.mem_singleton] at hg
      subst hg
      exact ⟨Or.inl rfl, hinv⟩
  · simp only [hr] at hg
    rcases List.mem_append.1 hg with hg | hg
    · have hpaused := List.eq_of_mem_replicate hg
      subst hpaused
      exact ⟨Or.inl rfl, hinv⟩
    · rcases List.mem_cons.1 hg with hg | hg
      · subst hg
        refine ⟨Or.inr ⟨t, rfl, rfl⟩, ?_⟩
        rintro s hs
        cases hs
        exact rebuild_ok_inv hr
      · rw [List.mem_singleton] at hg
        subst hg
        refine ⟨Or.inr ⟨t, rfl, rfl⟩, ?_⟩
        rintro s hs
        cases hs
        exact rebuild_ok_inv hr

/-- Witness for `background_rebuild_atomic` at a concrete old store and
row list. -/
theorem background_rebuild_atomic_witness :
    (∀ s, (Observed.mk (some (FaissIndexStore.init 1)) true).published = some s → StoreInv s) ∧
    ∀ g ∈ rebuildTaskTrace (Observed.mk (some (FaissIndexStore.init 1)) true) 1 [some (5, [2])],
      (g.published = (Observed.mk (some (FaissIndexStore.init 1)) true).published ∨
        ∃ t, (FaissIndexStore.init 1).rebuild (taskItems [some (5, [2])]) = .ok t ∧
          g.published = some t) ∧
      (∀ s, g.published = some s → StoreInv s) :=
  ⟨by decide,
    background_rebuild_atomic (Observed.mk (some (FaissIndexStore.init 1)) true) 1
      [some (5, [2])] (by decide)⟩

/-! Section: Claim C7: threshold readiness (corrected — the counter counts
every row, and only a successful add can flip the flag) -/

/-- A row on which the `_init_index` loop body performs a successful
`add` (not soft-deleted, id/embedding succeeded, vector of index
width). -/
def goodRow (d : ℕ) : SourceRow → Bool
  | .good _ v => decide (v.length = d)
  | _ => false

/-- Every branch of the loop body advances `processed` by exactly one. -/
theorem buildStep_processed (st : BuildState) (r : SourceRow) :
    (buildStep st r).processed = st.processed + 1 := by
  cases r with
  | deleted => rfl
  | failed => rfl
  | good pid v =>
    by_cases hv : v.length = st.store.index.d
    · simp [buildStep, add_ok hv]
    · simp [buildStep, add_err hv]

/-- The loop body never changes the faiss index width. -/
theorem buildStep_dim (st : BuildState) (r : SourceRow) :
    (buildStep st r).store.index.d = st.store.index.d := by
  cases r with
  | deleted => rfl
  | failed => rfl
  | good pid v =>
    by_cases hv : v.length = st.store.index.d
    · simp [buildStep, add_ok hv]
    · simp [buildStep, add_err hv]

/-- The ready flag after one loop iteration: unchanged unless the row is
successfully added and the (all-rows) processed counter has reached the
threshold. -/
theorem buildStep_ready (st : BuildState) (r : SourceRow) :
    (buildStep st r).ready =
      (st.ready || (goodRow st.store.index.d r &&
        decide (batchThreshold ≤ st.processed + 1))) := by
  cases r with
  | deleted => simp [buildStep, goodRow]
  | failed => simp [buildStep, goodRow]
  | good pid v =>
    by_cases hv : v.length = st.store.index.d
    · simp [buildStep, add_ok hv, goodRow, hv]
    · simp [buildStep, add_err hv, goodRow, hv]

/-- Once set, the ready flag survives the rest of the loop. -/
theorem buildRun_ready_mono (rows : List SourceRow) (st : BuildState)
    (h : st.ready = true) : (buildRun st rows).ready = true := by
  induction rows generalizing st with
  | nil => exact h
  | cons r rest ih =>
    have : buildRun st (r :: rest) = buildRun (buildStep st r) rest := rfl
    rw [this]
    exact ih _ (by rw [buildStep_ready, h, Bool.true_or])

/-- Characterization of the ready flag after the loop has consumed a row
sequence: it is set exactly when it was already set, or some row was
successfully added at a (1-based, all-rows) position reaching the
threshold. -/
theorem buildRun_ready_iff (rows : List SourceRow) (st : BuildState) :
    (buildRun st rows).ready = true ↔
      (st.ready = true ∨ ∃ i, i < rows.length ∧
        goodRow st.store.index.d (rows.getD i .deleted) = true ∧
        batchThreshold ≤ st.processed + i + 1) := by
  induction rows generalizing st with
  | nil => simp [buildRun]
  | cons r rest ih =>
    have hstep : buildRun st (r :: rest) = buildRun (buildStep st r) rest := rfl
    rw [hstep, ih, buildStep_ready, buildStep_processed, buildStep_dim]
    constructor
    · rintro (h | ⟨i, hi, hgood, hth⟩)
      · rw [Bool.or_eq_true] at h
        rcases h with h | h
        · exact Or.inl h
        · rw [Bool.and_eq_true] at h
          obtain ⟨hg, hthr⟩ := h
          refine Or.inr ⟨0, Nat.succ_pos _, ?_, ?_⟩
          · simpa using hg
          · simpa using of_decide_eq_true hthr
      · refine Or.inr ⟨i + 1, by simpa using Nat.succ_lt_succ hi, ?_, by omega⟩
        simpa using hgood
    · rintro (h | ⟨i, hi, hgood, hth⟩)
      · exact Or.inl (by rw [h, Bool.true_or])
      · cases i with
        | zero =>
          refine Or.inl ?_
          rw [Bool.or_eq_true, Bool.and_eq_true]
          refine Or.inr ⟨by simpa using hgood, ?_⟩
          simp only [decide_eq_true_eq]
          omega
        | succ i2 =>
          have hi2 : i2 < rest.length := by
            simp only [List.length_cons] at hi
            omega
          refine Or.inr ⟨i2, hi2, by simpa using hgood, by omega⟩

/-- C7 counterexample: a 31-row source (threshold 30 < 31) whose first 29
rows are soft-deleted and whose 30th row is the FIRST successfully
processed record.  After the loop has consumed 30 rows the ready flag is
already set, although only one record — far fewer than the threshold of
30 — was successfully processed: the flip is governed by the count of ALL
rows seen, not of successfully processed ones. -/
theorem threshold_counts_all_rows_cex :
    batchThreshold <
      (List.replicate 29 SourceRow.deleted ++
        [SourceRow.good 1 [5], SourceRow.good 2 [6]]).length ∧
    (buildRun { store := FaissIndexStore.init 1, processed := 0, ready := false }
      ((List.replicate 29 SourceRow.deleted ++
        [SourceRow.good 1 [5], SourceRow.good 2 [6]]).take 30)).ready = true ∧
    ((List.replicate 29 SourceRow.deleted ++
        [SourceRow.good 1 [5], SourceRow.good 2 [6]]).take 30).countP (goodRow 1) = 1 ∧
    1 < batchThreshold := by
  decide

/-- C7 amended: with threshold `T = batch_threshold = 30`, during the
initialization build the ready flag after the first `j` rows is set
exactly when some row at 1-based position `≥ T` — counting deleted,
failed and successful rows alike — was successfully added; the flag is
never reset by later rows; and a build loop that runs to completion
(here: artifacts absent, a nonempty primary row list) always ends with
the state ready. -/
theorem threshold_readiness_spec (dim : ℕ) (rows : List SourceRow) (j : ℕ)
    (hj : j ≤ rows.length) :
    ((buildRun { store := FaissIndexStore.init dim, processed := 0, ready := false }
        (rows.take j)).ready = true ↔
      ∃ i, i < j ∧ goodRow dim (rows.getD i .deleted) = true ∧
        batchThreshold ≤ i + 1) ∧
    (∀ st rows2, st.ready = true → (buildRun st rows2).ready = true) ∧
    (∀ prods fb, prods ≠ [] →
      (initIndex dim Files.empty (some prods) fb).ready = true) := by
  refine ⟨?_, fun st rows2 h => buildRun_ready_mono rows2 st h, ?_⟩
  · rw [buildRun_ready_iff]
    simp only [Bool.false_eq_true, false_or, List.length_take]
    constructor
    · rintro ⟨i, hi, hgood, hth⟩
      have hij : i < j := lt_of_lt_of_le hi (min_le_left _ _)
      refine ⟨i, hij, ?_, by omega⟩
      rw [List.getD_eq_getElem?_getD, List.getElem?_take, if_pos hij] at hgood
      rw [List.getD_eq_getElem?_getD]
      simpa [FaissIndexStore.init, IndexFlatIP] using hgood
    · rintro ⟨i, hij, hgood, hth⟩
      refine ⟨i, by omega, ?_, by omega⟩
      rw [List.getD_eq_getElem?_getD, List.getElem?_take, if_pos hij]
      rw [List.getD_eq_getElem?_getD] at hgood
      simpa [FaissIndexStore.init, IndexFlatIP] using hgood
  · intro prods fb hne
    rcases prods with _ | ⟨p, ps⟩
    · exact absurd rfl hne
    · rfl

/-- Witness for `threshold_readiness_spec` at a concrete row list. -/
theorem threshold_readiness_spec_witness :
    (1 : ℕ) ≤ ([SourceRow.good 1 [5]] : List SourceRow).length ∧
    (((buildRun { store := FaissIndexStore.init 1, processed := 0, ready := false }
        (([SourceRow.good 1 [5]] : List SourceRow).take 1)).ready = true ↔
      ∃ i, i < 1 ∧ goodRow 1 (([SourceRow.good 1 [5]] : List SourceRow).getD i .deleted) = true ∧
        batchThreshold ≤ i + 1) ∧
    (∀ st rows2, st.ready = true → (buildRun st rows2).ready = true) ∧
    (∀ prods fb, prods ≠ [] →
      (initIndex 1 Files.empty (some prods) fb).ready = true)) :=
  ⟨by decide, threshold_readiness_spec 1 [SourceRow.good 1 [5]] 1 (by decide)⟩

/-! Section: Claim C4: top-k search -/

/-- Evaluation of the search result loop when every slot is either the
`-1` padding or a valid mapping position: the loop succeeds, skips the
padding, and translates each remaining slot through the mapping. -/
theorem searchLoop_eval (mapping : List ℤ) (l : List (ℤ × ℤ)) (acc : List (ℤ × ℤ))
    (h : ∀ p ∈ l, p.2 = -1 ∨ ∃ jn : ℕ, p.2 = (jn : ℤ) ∧ jn < mapping.length) :
    searchLoop mapping l acc =
      .ok (acc.reverse ++ (l.filter (fun p => decide (p.2 ≠ -1))).map
        (fun p => (mapping.getD p.2.toNat 0, p.1))) := by
  induction l generalizing acc with
  | nil =>
    unfold searchLoop
    simp
  | cons p rest ih =>
    obtain ⟨score, i⟩ := p
    unfold searchLoop
    by_cases hi : i = -1
    · rw [if_pos hi]
      rw [ih _ (fun p2 hp2 => h p2 (List.mem_cons_of_mem _ hp2))]
      congr 1
      congr 1
      rw [List.filter_cons]
      simp [hi]
    · rw [if_neg hi]
      rcases h (score, i) (List.mem_cons_self _ _) with hcon | ⟨jn, hjn, hlt⟩
      · exact absurd hcon hi
      · have hjn2 : i = (jn : ℤ) := hjn
        have htn : i.toNat < mapping.length := by
          rw [hjn2, Int.toNat_natCast]
          exact hlt
        have hget : mapping.get? i.toNat = some (mapping.getD i.toNat 0) := by
          rw [List.get?_eq_getElem?, List.getElem?_eq_getElem htn,
            List.getD_eq_getElem mapping 0 htn]
        simp only [hget]
        rw [ih _ (fun p2 hp2 => h p2 (List.mem_cons_of_mem _ hp2))]
        rw [List.filter_cons]
        simp [hi]

/-- The spec scenario store: three stored vectors whose inner products
against the query `[1]` are 9, 5 and 1, with ids 11, 22, 33. -/
def topKDemoStore : FaissIndexStore :=
  { dim := 1, index := { d := 1, xb := [[9], [5], [1]] }, mapping := [11, 22, 33] }

/-- C4 counterexample: on a nonempty store, `search` with `k = 0` raises
the faiss wrapper assertion (the wrapper asserts `k > 0`, and `top_k = 0`
is reachable through the route) instead of returning up to 0 pairs — the
original every-`k` claim fails at `k = 0`. -/
theorem search_k_zero_raises_cex :
    topKDemoStore.search [1] 0 = .error .assertionError ∧
    ∀ res : List (ℤ × ℤ), ¬ topKDemoStore.search [1] 0 = .ok res := by
  refine ⟨by decide, ?_⟩
  intro res h
  have h2 : topKDemoStore.search [1] 0 = .error .assertionError := by decide
  rw [h2] at h
  exact Except.noConfusion h

/-- C4 amended: for a consistent store, a query of the store width and
`k ≥ 1`, `search` succeeds and returns the (id, score) translation of a
slot list `sl` with: one entry per returned pair, `min k n` entries in
total (so at most `k`, and every stored vector when `k ≥ n`), each slot a
valid position scored by inner product with the query, ordered by
strictly descending score with ties broken by strictly ascending slot,
and — when `k` covers the whole index — the slots a permutation of all
positions.  An empty index always returns the empty result, for every
query and `k`; but on a nonempty index `k = 0` raises the faiss
assertion instead of returning an empty result. -/
theorem search_top_k_spec (s : FaissIndexStore) (q : Vec) (k : ℕ)
    (hinv : StoreInv s) (hwf : s.index.d = s.dim) (hq : q.length = s.dim)
    (hk : 1 ≤ k) :
    (∃ sl : List (ℕ × ℤ),
      s.search q k = .ok (sl.map (fun p => (s.mapping.getD p.1 0, p.2))) ∧
      sl.length = min k s.index.xb.length ∧
      (∀ p ∈ sl, p.1 < s.index.xb.length ∧ p.2 = ip q (s.index.xb.getD p.1 [])) ∧
      sl.Pairwise (fun a b => b.2 < a.2 ∨ (a.2 = b.2 ∧ a.1 < b.1)) ∧
      (s.index.xb.length ≤ k → (sl.map Prod.fst).Perm (List.range s.index.xb.length))) ∧
    (s.mapping.length = 0 → ∀ q2 k2, s.search q2 k2 = .ok []) ∧
    (s.mapping.length ≠ 0 → s.search q 0 = .error .assertionError) := by
  have hempty : s.mapping.length = 0 → ∀ q2 k2, s.search q2 k2 = .ok [] := by
    intro h0 q2 k2
    unfold FaissIndexStore.search
    rw [if_pos h0]
  have hqd : ¬ q.length ≠ s.index.d := by
    rw [hwf, hq]
    exact not_ne_iff.2 rfl
  have hzero : s.mapping.length ≠ 0 → s.search q 0 = .error .assertionError := by
    intro h0
    unfold FaissIndexStore.search
    rw [if_neg h0]
    have hfz : s.index.search q 0 = .error .assertionError := by
      unfold FaissIndexFlatIP.search
      rw [if_neg hqd, if_pos rfl]
    simp only [hfz]
  refine ⟨?_, hempty, hzero⟩
  have hmn : s.mapping.length = s.index.xb.length := hinv
  by_cases hn : s.mapping.length = 0
  · refine ⟨[], ?_, ?_, by simp, by simp, ?_⟩
    · simpa using hempty hn q k
    · rw [← hmn, hn]
      simp
    · intro hnk
      rw [← hmn, hn]
      simp
  · set n := s.index.xb.length with hnDef
    set scores := s.index.xb.map (fun x => ip q x) with hscores
    set sorted := List.insertionSort rankLE scores.enum with hsorted
    set top := sorted.take k with htop
    have hperm : sorted.Perm scores.enum := List.perm_insertionSort _ _
    have hscoresLen : scores.length = n := by
      rw [hscores, List.length_map]
    have hsortedLen : sorted.length = n := by
      rw [hperm.length_eq, List.enum_length, hscoresLen]
    have hsortSorted : List.Sorted rankLE sorted := List.sorted_insertionSort _ _
    have hmemSorted : ∀ p ∈ sorted, p.1 < n ∧ p.2 = ip q (s.index.xb.getD p.1 []) := by
      intro p hp
      have hp2 := hperm.subset hp
      rw [List.mem_enum_iff_getElem?] at hp2
      have hlt : p.1 < scores.length := by
        by_contra hcon
        rw [List.getElem?_eq_none (le_of_not_lt hcon)] at hp2
        cases hp2
      have hlen : p.1 < n := by rw [← hscoresLen]; exact hlt
      refine ⟨hlen, ?_⟩
      rw [List.getElem?_eq_getElem hlt] at hp2
      have hval := Option.some.inj hp2
      rw [List.getD_eq_getElem s.index.xb [] hlen, ← hval]
      simp [hscores]
    have hnodupSorted : (sorted.map Prod.fst).Nodup := by
      rw [List.Perm.nodup_iff (hperm.map Prod.fst), List.enum_map_fst]
      exact List.nodup_range _
    have hnodupTop : (top.map Prod.fst).Nodup := by
      rw [htop, List.map_take]
      exact List.Nodup.sublist (List.take_sublist _ _) hnodupSorted
    have hpairTop : top.Pairwise rankLE :=
      List.Pairwise.sublist (List.take_sublist _ _) hsortSorted
    have hpairNe : top.Pairwise (fun a b => a.1 ≠ b.1) := List.pairwise_map.1 hnodupTop
    have hpairStrict :
        top.Pairwise (fun a b => b.2 < a.2 ∨ (a.2 = b.2 ∧ a.1 < b.1)) := by
      refine (hpairTop.and hpairNe).imp ?_
      intro a b hab
      obtain ⟨hr, hne⟩ := hab
      unfold rankLE at hr
      rcases hr with hlt | ⟨heq, hle⟩
      · exact Or.inl hlt
      · exact Or.inr ⟨heq, lt_of_le_of_ne hle hne⟩
    have htopLen : top.length = min k n := by
      rw [htop, List.length_take, hsortedLen]
    have hpermRange : n ≤ k → (top.map Prod.fst).Perm (List.range n) := by
      intro hnk
      have htopAll : top = sorted := by
        rw [htop]
        exact List.take_of_length_le (by rw [hsortedLen]; exact hnk)
      rw [htopAll]
      have h1 := hperm.map Prod.fst
      rw [List.enum_map_fst, hscoresLen] at h1
      exact h1
    have hkne : ¬ k = 0 := by omega
    have hfaiss : s.index.search q k =
        .ok (top.map (fun p => (p.2, (p.1 : ℤ))) ++
          List.replicate (k - min k n) (0, -1)) := by
      unfold FaissIndexFlatIP.search
      rw [if_neg hqd, if_neg hkne]
    have hsearch : s.search q k = searchLoop s.mapping
        (top.map (fun p => (p.2, (p.1 : ℤ))) ++
          List.replicate (k - min k n) (0, -1)) [] := by
      unfold FaissIndexStore.search
      rw [if_neg hn]
      simp only [hfaiss]
    have hvalid : ∀ p ∈ (top.map (fun p => (p.2, (p.1 : ℤ))) ++
        List.replicate (k - min k n) ((0 : ℤ), (-1 : ℤ))),
        p.2 = -1 ∨ ∃ jn : ℕ, p.2 = (jn : ℤ) ∧ jn < s.mapping.length := by
      intro p hp
      rcases List.mem_append.1 hp with hp | hp
      · rcases List.mem_map.1 hp with ⟨p0, hp0, rfl⟩
        refine Or.inr ⟨p0.1, rfl, ?_⟩
        rw [hmn]
        exact (hmemSorted p0 ((List.take_sublist _ _).subset hp0)).1
      · have hval := List.eq_of_mem_replicate hp
        rw [hval]
        exact Or.inl rfl
    have hloop := searchLoop_eval s.mapping _ [] hvalid
    rw [hloop] at hsearch
    refine ⟨top, ?_, htopLen, ?_, hpairStrict, hpermRange⟩
    · rw [hsearch]
      congr 1
      rw [List.reverse_nil, List.nil_append, List.filter_append]
      have hfilter1 : (top.map (fun p => (p.2, (p.1 : ℤ)))).filter
          (fun p => decide (p.2 ≠ -1)) = top.map (fun p => (p.2, (p.1 : ℤ))) := by
        rw [List.filter_eq_self]
        intro a ha
        rcases List.mem_map.1 ha with ⟨p0, hp0, rfl⟩
        simp
      have hfilter2 : (List.replicate (k - min k n) ((0 : ℤ), (-1 : ℤ))).filter
          (fun p => decide (p.2 ≠ -1)) = [] := by
        rw [List.filter_eq_nil_iff]
        intro a ha
        have hval := List.eq_of_mem_replicate ha
        rw [hval]
        simp
      rw [hfilter1, hfilter2, List.append_nil, List.map_map]
      refine List.map_congr_left ?_
      intro p hp
      simp [Int.toNat_natCast]
    · intro p hp
      exact hmemSorted p ((List.take_sublist _ _).subset hp)

/-- Witness for `search_top_k_spec`: on `topKDemoStore` with `k = 2` the
search returns the two best-scoring ids in order (and `k = 0` raises). -/
theorem search_top_k_spec_witness :
    StoreInv topKDemoStore ∧
    ((∃ sl : List (ℕ × ℤ),
      topKDemoStore.search [1] 2 = .ok (sl.map (fun p => (topKDemoStore.mapping.getD p.1 0, p.2))) ∧
      sl.length = min 2 topKDemoStore.index.xb.length ∧
      (∀ p ∈ sl, p.1 < topKDemoStore.index.xb.length ∧
        p.2 = ip [1] (topKDemoStore.index.xb.getD p.1 [])) ∧
      sl.Pairwise (fun a b => b.2 < a.2 ∨ (a.2 = b.2 ∧ a.1 < b.1)) ∧
      (topKDemoStore.index.xb.length ≤ 2 →
        (sl.map Prod.fst).Perm (List.range topKDemoStore.index.xb.length))) ∧
    (topKDemoStore.mapping.length = 0 →
      ∀ q2 k2, topKDemoStore.search q2 k2 = .ok []) ∧
    (topKDemoStore.mapping.length ≠ 0 →
      topKDemoStore.search [1] 0 = .error .assertionError)) ∧
    topKDemoStore.search [1] 2 = .ok [(11, 9), (22, 5)] :=
  ⟨by decide,
    search_top_k_spec topKDemoStore [1] 2 (by decide) (by decide) (by decide) (by decide),
    by decide⟩

/-! Section: dimension well-formedness.  The hypotheses `s.index.d = s.dim`
used above hold of every store the class can construct: they are
established by `__init__` and preserved by every operation. -/

/-- The owned faiss index was built with the store dimension. -/
def DimWF (s : FaissIndexStore) : Prop := s.index.d = s.dim

/-- Every operation preserves `DimWF`, normally or raising. -/
theorem step_preserves_dimWF (st : FaissIndexStore × Files) (op : Op)
    (h : DimWF st.1) : DimWF (Op.step st op).1 := by
  obtain ⟨s, fs⟩ := st
  cases op with
  | add pid v =>
    simp only [Op.step]
    by_cases hv : v.length = s.index.d
    · rw [add_ok hv]
      exact h
    · rw [add_err hv]
      exact h
  | rebuild items =>
    simp only [Op.step]
    rcases hr : s.rebuild items with ⟨e, t⟩ | t
    · rw [rebuild_err_state s items e t hr]
      exact rfl
    · rcases (rebuild_ok_iff s items t).1 hr with ⟨-, rfl⟩
      exact rfl
  | save => exact h
  | load =>
    simp only [Op.step]
    obtain ⟨fi, fm⟩ := fs
    cases fi with
    | absent => cases fm <;> exact h
    | malformed => cases fm <;> exact h
    | valid idx =>
      cases fm with
      | absent => exact h
      | malformed =>
        simp only [FaissIndexStore.load_if_exists]
        by_cases hd : idx.d = s.dim
        · rw [if_neg (not_ne_iff.2 hd)]
          exact hd
        · rw [if_pos hd]
          exact h
      | valid m =>
        simp only [FaissIndexStore.load_if_exists]
        by_cases hd : idx.d = s.dim
        · rw [if_neg (not_ne_iff.2 hd)]
          exact hd
        · rw [if_pos hd]
          exact h

/-- From a fresh store, every reachable store satisfies `DimWF`. -/
theorem runOps_dimWF (dim : ℕ) (ops : List Op) :
    DimWF (runOps (FaissIndexStore.init dim, Files.empty) ops).1 := by
  have haux : ∀ ops2 st, DimWF (Prod.fst st) → DimWF (runOps st ops2).1 := by
    intro ops2
    induction ops2 with
    | nil => exact fun st h => h
    | cons op ops2 ih => exact fun st h => ih _ (step_preserves_dimWF st op h)
  exact haux ops _ rfl

end FaissApi
